import Mathlib

/-!
Verification of the transactional statement-batch engine
(`src/server/database/Database/Transaction.cpp`).

Shallow embedding conventions:
* A C++ pointer argument (`char const*`, `PreparedStatementBase*`) is an
  `Option`: `none` is the null pointer.  `ASSERT` aborts the process, so an
  operation guarded by `ASSERT` returns an `Option` result, `none` meaning
  the assertion fired.
* A prepared statement is an opaque handle, modelled as a `Nat` id.
* The connection (`conn->ExecuteTransaction`) is an oracle `Nat → Int`
  giving the error code of the n-th call (0 = success); call 0 is the first
  attempt, call n+1 the n-th retry inside the deadlock loop.
* The clock (`GetMSTimeDiffToNow(startMSTime)`) is an oracle `Nat → Nat`
  giving the k-th elapsed-milliseconds observation.
* Log emissions (`TC_LOG_WARN` / `TC_LOG_ERROR`) are counted.
* The retry loop is given fuel; `none` means the fuel ran out before the
  loop exited (the loop itself is unbounded in iterations, bounded only by
  the wall clock).
-/

set_option autoImplicit false

/-- One entry of the batch: `m_queries` holds a variant of a raw SQL string
or an owned prepared statement (opaque handle). -/
inductive StatementEntry where
  | rawText (sql : String)
  | prepared (stmt : Nat)
deriving DecidableEq, Repr

/-- State of a `TransactionBase`: the ordered query list `m_queries` and the
`_cleanedUp` flag. -/
structure TransactionBase where
  m_queries : List StatementEntry
  _cleanedUp : Bool
deriving DecidableEq, Repr

/-- Modelled from the spec: the constructor of `TransactionBase` lives in
`Transaction.h`, which is not among the sources; the spec states a batch is
"created empty by a caller" and not yet cleaned up. -/
def TransactionBase.mkFresh : TransactionBase := ⟨[], false⟩

/-- Embedding of `TransactionBase::Append(char const* sql)`: `ASSERT(sql)`
(null check only), then `m_queries.emplace_back` of the string. -/
def TransactionBase.Append (t : TransactionBase) (sql : Option String) :
    Option TransactionBase :=
  match sql with
  | none => none
  | some s => some ⟨t.m_queries ++ [StatementEntry.rawText s], t._cleanedUp⟩

/-- Embedding of `TransactionBase::AppendPreparedStatement`: `ASSERT(stmt)`,
then `m_queries.emplace_back` of the owned statement. -/
def TransactionBase.AppendPreparedStatement (t : TransactionBase)
    (stmt : Option Nat) : Option TransactionBase :=
  match stmt with
  | none => none
  | some p => some ⟨t.m_queries ++ [StatementEntry.prepared p], t._cleanedUp⟩

/-- Embedding of `TransactionBase::Cleanup()`: early-returns if `_cleanedUp`,
otherwise clears `m_queries` and sets `_cleanedUp`. -/
def TransactionBase.Cleanup (t : TransactionBase) : TransactionBase :=
  if t._cleanedUp then t else ⟨[], true⟩

/-- The intended batch invariant: a cleaned-up batch has an empty query
sequence. -/
def TransactionBase.WF (t : TransactionBase) : Prop :=
  t._cleanedUp = true → t.m_queries = []

instance (t : TransactionBase) : Decidable t.WF := by
  unfold TransactionBase.WF; infer_instance

/-- One call into the public mutating surface of `TransactionBase`. -/
inductive BatchOp where
  | append (sql : Option String)
  | appendPrepared (stmt : Option Nat)
  | cleanup
deriving DecidableEq, Repr

/-- Apply one operation; `none` when an `ASSERT` fired. -/
def TransactionBase.applyOp (t : TransactionBase) (op : BatchOp) :
    Option TransactionBase :=
  match op with
  | BatchOp.append s => t.Append s
  | BatchOp.appendPrepared p => t.AppendPreparedStatement p
  | BatchOp.cleanup => some t.Cleanup

/-- Run a sequence of operations; `none` when some `ASSERT` fired. -/
def TransactionBase.runOps (t : TransactionBase) :
    List BatchOp → Option TransactionBase
  | [] => some t
  | op :: ops =>
    match t.applyOp op with
    | none => none
    | some t2 => t2.runOps ops

/-- The entry a successful append operation adds to the sequence. -/
def BatchOp.entry : BatchOp → Option StatementEntry
  | BatchOp.append (some s) => some (StatementEntry.rawText s)
  | BatchOp.appendPrepared (some p) => some (StatementEntry.prepared p)
  | _ => none

/-- Value of `ER_LOCK_DEADLOCK` from `mysqld_error.h` (MySQL error 1213). -/
def ER_LOCK_DEADLOCK : Int := 1213

/-- Value of `DEADLOCK_MAX_RETRY_TIME_MS` (60 000 ms ceiling). -/
def DEADLOCK_MAX_RETRY_TIME_MS : Nat := 60000

/-- What the retry loop produced: whether it exited by a successful
re-attempt, how many `TryExecute` calls it made, and how many
`TC_LOG_WARN` lines it emitted. -/
structure RetryOutcome where
  success : Bool
  retryCalls : Nat
  warns : Nat
deriving DecidableEq, Repr

/-- The `for` loop of `TransactionTask::Execute`:
`for (uint32 loopDuration = 0, startMSTime = getMSTime(); loopDuration <= DEADLOCK_MAX_RETRY_TIME_MS; loopDuration = GetMSTimeDiffToNow(startMSTime))`.
`k` is the iteration index: on iteration 0 `loopDuration` is its initial
value 0, on iteration `k+1` it is the `k`-th clock observation
`elapsed k`.  `calls` and `warns` accumulate the `TryExecute` calls and
warning logs made so far.  `fuel` bounds the number of iterations modelled;
`none` means the fuel was exhausted before the loop exited. -/
def TransactionTask.retryLoop (conn : Nat → Int) (elapsed : Nat → Nat) :
    Nat → Nat → Nat → Nat → Option RetryOutcome
  | 0, _, _, _ => none
  | fuel + 1, k, calls, warns =>
    if (if k = 0 then 0 else elapsed (k - 1)) ≤ DEADLOCK_MAX_RETRY_TIME_MS then
      if conn k = 0 then some ⟨true, calls + 1, warns⟩
      else TransactionTask.retryLoop conn elapsed fuel (k + 1) (calls + 1) (warns + 1)
    else some ⟨false, calls, warns⟩

/-- Observable outcome of `TransactionTask::Execute`: the boolean return
value, the final batch state, the number of `TC_LOG_WARN` and
`TC_LOG_ERROR` emissions, and the total number of `TryExecute` calls. -/
structure ExecResult where
  ret : Bool
  trans : TransactionBase
  warns : Nat
  fatals : Nat
  attempts : Nat
deriving DecidableEq, Repr

/-- Embedding of `TransactionTask::Execute(conn, trans)`.  Here `conn n` is the error code of
the n-th `TryExecute` call (`conn->ExecuteTransaction`), 0 meaning success.
The first call succeeding returns true at once; `ER_LOCK_DEADLOCK` enters
the retry loop under `_deadlockLock` (a successful re-attempt returns true,
exhaustion of the time ceiling emits one `TC_LOG_ERROR`); every
false-returning path runs `trans->Cleanup()` first. -/
def TransactionTask.Execute (conn : Nat → Int) (elapsed : Nat → Nat)
    (trans : TransactionBase) (fuel : Nat) : Option ExecResult :=
  if conn 0 = 0 then
    some ⟨true, trans, 0, 0, 1⟩
  else if conn 0 = ER_LOCK_DEADLOCK then
    Option.map
      (fun r =>
        if r.success then ⟨true, trans, r.warns, 0, 1 + r.retryCalls⟩
        else ⟨false, trans.Cleanup, r.warns, 1, 1 + r.retryCalls⟩)
      (TransactionTask.retryLoop (fun k => conn (k + 1)) elapsed fuel 0 0 0)
  else
    some ⟨false, trans.Cleanup, 0, 0, 1⟩

/-- State of the `std::future<bool>` inside `TransactionCallback`:
`invalid` (`valid()` false — never attached, or already consumed by
`get()`), `pending` (attached, result not yet set), or `ready v`. -/
inductive FutureState where
  | invalid
  | pending
  | ready (v : Bool)
deriving DecidableEq, Repr

/-- `TransactionCallback`: the future plus the record of values the
callback `m_callback` has been invoked with. -/
structure TransactionCallback where
  m_future : FutureState
  fired : List Bool
deriving DecidableEq, Repr

/-- Embedding of `TransactionCallback::InvokeIfReady()`: if `m_future.valid()` and
`wait_for(0) == ready`, calls `m_callback(m_future.get())` — `get()`
consumes the shared state, leaving the future invalid — and returns true;
otherwise returns false with no state change. -/
def TransactionCallback.InvokeIfReady (cb : TransactionCallback) :
    TransactionCallback × Bool :=
  match cb.m_future with
  | FutureState.ready v => (⟨FutureState.invalid, cb.fired ++ [v]⟩, true)
  | _ => (cb, false)

/-- An event in the life of the handle: a poll by the owner, or the
producer fulfilling the promise with a result. -/
inductive CbEvent where
  | poll
  | fulfill (v : Bool)
deriving DecidableEq, Repr

/-- One event step: `poll` runs `InvokeIfReady`; `fulfill v` makes a
pending future ready (set_value on the promise), and is a no-op on a
future that is invalid or already ready. -/
def TransactionCallback.step (cb : TransactionCallback) :
    CbEvent → TransactionCallback
  | CbEvent.poll => (cb.InvokeIfReady).1
  | CbEvent.fulfill v =>
    match cb.m_future with
    | FutureState.pending => ⟨FutureState.ready v, cb.fired⟩
    | _ => cb

/-- Run a sequence of events on the handle. -/
def TransactionCallback.run (cb : TransactionCallback) :
    List CbEvent → TransactionCallback
  | [] => cb
  | e :: es => (cb.step e).run es

/-- Phase of one worker thread with respect to the deadlock-retry region of
`TransactionTask::Execute`: `idle` (has not deadlocked), `waiting` (blocked
constructing the `std::lock_guard` on `_deadlockLock`), `retrying` (inside
the retry loop, between acquiring the guard and leaving its scope), and
`finished` (past the guard's scope exit, whether by the in-loop
`return true`, by ceiling exhaustion, or by any other exit). -/
inductive RetryPhase where
  | idle
  | waiting
  | retrying
  | finished
deriving DecidableEq, Repr

/-- Process-wide state: each thread's phase plus the owner of the single
static `TransactionTask::_deadlockLock`. -/
structure LockState where
  phase : Nat → RetryPhase
  holder : Option Nat

/-- Interleaving semantics of the lock discipline in the code: a thread
whose first attempt deadlocked reaches the `lock_guard` (`hitDeadlock`);
the guard's constructor acquires the free mutex, after which the whole
retry loop runs (`acquire`); the only way out of the retry region is the
guard's scope exit, which releases the mutex (`release`) — there is no
release, and no second acquire, anywhere inside the loop. -/
inductive LockStep : LockState → LockState → Prop where
  | hitDeadlock (s : LockState) (i : Nat) :
      s.phase i = RetryPhase.idle →
      LockStep s ⟨fun j => if j = i then RetryPhase.waiting else s.phase j, s.holder⟩
  | acquire (s : LockState) (i : Nat) :
      s.phase i = RetryPhase.waiting → s.holder = none →
      LockStep s ⟨fun j => if j = i then RetryPhase.retrying else s.phase j, some i⟩
  | release (s : LockState) (i : Nat) :
      s.phase i = RetryPhase.retrying →
      LockStep s ⟨fun j => if j = i then RetryPhase.finished else s.phase j, none⟩

/-- Initial state: no thread has deadlocked, the mutex is free. -/
def LockState.init : LockState := ⟨fun _ => RetryPhase.idle, none⟩

/-- States reachable by any interleaving of thread steps. -/
inductive LockReachable : LockState → Prop where
  | init : LockReachable LockState.init
  | step (s t : LockState) : LockReachable s → LockStep s t → LockReachable t

/-- Auxiliary invariant: a thread inside the retry region owns the mutex. -/
def LockInv (s : LockState) : Prop :=
  ∀ i, s.phase i = RetryPhase.retrying → s.holder = some i

/-- An operation sequence in which no append follows a cleanup: after the
first `cleanup`, only further `cleanup`s occur. -/
def noAppendAfterCleanup : List BatchOp → Bool
  | [] => true
  | BatchOp.cleanup :: rest => rest.all (fun op => decide (op = BatchOp.cleanup))
  | _ :: rest => noAppendAfterCleanup rest

lemma cleanup_cleanup (t : TransactionBase) : t.Cleanup.Cleanup = t.Cleanup := by
  unfold TransactionBase.Cleanup
  by_cases h : t._cleanedUp = true
  · simp [h]
  · simp [h]

lemma iterate_cleanup (t : TransactionBase) :
    ∀ n, Nat.iterate TransactionBase.Cleanup n t.Cleanup = t.Cleanup := by
  intro n
  induction n generalizing t with
  | zero => rfl
  | succ n ih =>
    rw [Function.iterate_succ_apply, cleanup_cleanup]
    exact ih t

lemma runOps_append_only (ops : List BatchOp) :
    ∀ t t' : TransactionBase, (∀ op ∈ ops, op ≠ BatchOp.cleanup) →
      t.runOps ops = some t' →
      t'.m_queries = t.m_queries ++ ops.filterMap BatchOp.entry := by
  induction ops with
  | nil =>
    intro t t' _ h
    simp only [TransactionBase.runOps] at h
    cases h
    simp
  | cons op ops ih =>
    intro t t' hnc h
    simp only [TransactionBase.runOps] at h
    cases op with
    | append s =>
      cases s with
      | none => simp [TransactionBase.applyOp, TransactionBase.Append] at h
      | some str =>
        simp only [TransactionBase.applyOp, TransactionBase.Append] at h
        have := ih _ t' (fun op hop => hnc op (List.mem_cons_of_mem _ hop)) h
        simp only [this, BatchOp.entry, List.filterMap_cons]
        simp
    | appendPrepared p =>
      cases p with
      | none => simp [TransactionBase.applyOp, TransactionBase.AppendPreparedStatement] at h
      | some pid =>
        simp only [TransactionBase.applyOp, TransactionBase.AppendPreparedStatement] at h
        have := ih _ t' (fun op hop => hnc op (List.mem_cons_of_mem _ hop)) h
        simp only [this, BatchOp.entry, List.filterMap_cons]
        simp
    | cleanup => exact absurd rfl (hnc BatchOp.cleanup (List.mem_cons_self _ _))

lemma retryLoop_sound (conn : Nat → Int) (el : Nat → Nat) :
    ∀ fuel k r, TransactionTask.retryLoop conn el fuel k k k = some r →
      (r.success = true →
        k + 1 ≤ r.retryCalls ∧ r.warns = r.retryCalls - 1 ∧
        conn (r.retryCalls - 1) = 0 ∧
        (∀ j, k ≤ j → j + 1 < r.retryCalls → conn j ≠ 0))
      ∧ (r.success = false →
        k ≤ r.retryCalls ∧ r.warns = r.retryCalls ∧
        (∀ j, k ≤ j → j < r.retryCalls → conn j ≠ 0)) := by
  intro fuel
  induction fuel with
  | zero => intro k r h; simp [TransactionTask.retryLoop] at h
  | succ fuel ih =>
    intro k r h
    rw [TransactionTask.retryLoop] at h
    by_cases hd : (if k = 0 then 0 else el (k - 1)) ≤ DEADLOCK_MAX_RETRY_TIME_MS
    · rw [if_pos hd] at h
      by_cases hc : conn k = 0
      · rw [if_pos hc] at h
        cases h
        refine ⟨fun _ => ⟨le_refl _, by simp, by simpa using hc, ?_⟩, fun hfalse => by simp at hfalse⟩
        intro j hkj hjlt
        exact absurd (show j + 1 < k + 1 from hjlt) (by omega)
      · rw [if_neg hc] at h
        have hrec := ih (k + 1) r h
        refine ⟨fun hs => ?_, fun hs => ?_⟩
        · obtain ⟨h1, h2, h3, h4⟩ := hrec.1 hs
          refine ⟨by omega, h2, h3, ?_⟩
          intro j hkj hjlt
          rcases Nat.eq_or_lt_of_le hkj with heq | hlt
          · subst heq; exact hc
          · exact h4 j hlt hjlt
        · obtain ⟨h1, h2, h3⟩ := hrec.2 hs
          refine ⟨by omega, h2, ?_⟩
          intro j hkj hjlt
          rcases Nat.eq_or_lt_of_le hkj with heq | hlt
          · subst heq; exact hc
          · exact h3 j hlt hjlt
    · rw [if_neg hd] at h
      cases h
      exact ⟨fun hs => by simp at hs,
        fun _ => ⟨le_refl _, rfl,
          fun j hkj hjlt => absurd (show j < k from hjlt) (by omega)⟩⟩

lemma retryLoop_total (conn : Nat → Int) (el : Nat → Nat) (N : Nat)
    (hN : DEADLOCK_MAX_RETRY_TIME_MS < el N) :
    ∀ fuel k, k ≤ N + 1 → N + 2 ≤ fuel + k →
      (TransactionTask.retryLoop conn el fuel k k k).isSome := by
  intro fuel
  induction fuel with
  | zero => intro k hk hfk; omega
  | succ fuel ih =>
    intro k hk hfk
    rw [TransactionTask.retryLoop]
    by_cases hd : (if k = 0 then 0 else el (k - 1)) ≤ DEADLOCK_MAX_RETRY_TIME_MS
    · rw [if_pos hd]
      by_cases hc : conn k = 0
      · rw [if_pos hc]; rfl
      · rw [if_neg hc]
        have hkne : k ≠ N + 1 := by
          intro hkeq
          subst hkeq
          rw [if_neg (Nat.succ_ne_zero N), Nat.add_sub_cancel] at hd
          omega
        exact ih (k + 1) (by omega) (by omega)
    · rw [if_neg hd]; rfl

lemma retryLoop_start_calls (conn : Nat → Int) (el : Nat → Nat) :
    ∀ fuel r, TransactionTask.retryLoop conn el fuel 0 0 0 = some r →
      1 ≤ r.retryCalls := by
  intro fuel r h
  cases fuel with
  | zero => simp [TransactionTask.retryLoop] at h
  | succ fuel =>
    rw [TransactionTask.retryLoop] at h
    simp only [if_pos (Nat.zero_le DEADLOCK_MAX_RETRY_TIME_MS), reduceIte] at h
    by_cases hc : conn 0 = 0
    · rw [if_pos hc] at h
      cases h
      exact le_refl _
    · rw [if_neg hc] at h
      have := retryLoop_sound conn el fuel 1 r h
      cases hs : r.success
      · have := (this.2 hs).1; omega
      · have := (this.1 hs).1; omega

lemma cleanup_state (t : TransactionBase) (h : t.WF) :
    t.Cleanup.m_queries = [] ∧ t.Cleanup._cleanedUp = true := by
  unfold TransactionBase.Cleanup
  by_cases hc : t._cleanedUp
  · rw [if_pos hc]
    exact ⟨h hc, hc⟩
  · rw [if_neg hc]
    exact ⟨rfl, rfl⟩

lemma run_fired_invariant (evs : List CbEvent) :
    ∀ cb : TransactionCallback, cb.fired.length ≤ 1 →
      (cb.fired.length = 1 → cb.m_future = FutureState.invalid) →
      (cb.run evs).fired.length ≤ 1 ∧
      ((cb.run evs).fired.length = 1 → (cb.run evs).m_future = FutureState.invalid) := by
  induction evs with
  | nil => intro cb h1 h2; exact ⟨h1, h2⟩
  | cons e es ih =>
    intro cb h1 h2
    rw [TransactionCallback.run]
    cases e with
    | poll =>
      cases hm : cb.m_future with
      | ready v =>
        have h0 : cb.fired = [] := by
          rcases Nat.le_one_iff_eq_zero_or_eq_one.1 h1 with hz | ho
          · exact List.length_eq_zero.1 hz
          · exact absurd (h2 ho) (by rw [hm]; simp)
        apply ih
        · simp [TransactionCallback.step, TransactionCallback.InvokeIfReady, hm, h0]
        · intro _
          simp [TransactionCallback.step, TransactionCallback.InvokeIfReady, hm]
      | invalid =>
        apply ih
        · simpa [TransactionCallback.step, TransactionCallback.InvokeIfReady, hm] using h1
        · simp [TransactionCallback.step, TransactionCallback.InvokeIfReady, hm]
      | pending =>
        apply ih
        · simpa [TransactionCallback.step, TransactionCallback.InvokeIfReady, hm] using h1
        · simpa [TransactionCallback.step, TransactionCallback.InvokeIfReady, hm] using h2
    | fulfill v =>
      cases hm : cb.m_future with
      | pending =>
        apply ih
        · simpa [TransactionCallback.step, hm] using h1
        · intro hl
          simp only [TransactionCallback.step, hm] at hl
          exact absurd (h2 (by simpa using hl)) (by rw [hm]; simp)
      | invalid =>
        apply ih
        · simpa [TransactionCallback.step, hm] using h1
        · simp [TransactionCallback.step, hm]
      | ready w =>
        apply ih
        · simpa [TransactionCallback.step, hm] using h1
        · simpa [TransactionCallback.step, hm] using h2

lemma lockReachable_inv (s : LockState) (h : LockReachable s) : LockInv s := by
  induction h with
  | init =>
    intro i hi
    exact absurd hi (by simp [LockState.init])
  | step s' t hs hstep ih =>
    cases hstep with
    | hitDeadlock i hi =>
      intro j hj
      simp only at hj
      by_cases hji : j = i
      · rw [if_pos hji] at hj
        exact absurd hj (by simp)
      · rw [if_neg hji] at hj
        exact ih j hj
    | acquire i hw hn =>
      intro j hj
      simp only at hj
      by_cases hji : j = i
      · subst hji; rfl
      · rw [if_neg hji] at hj
        rw [ih j hj] at hn
        exact absurd hn (by simp)
    | release i hr =>
      intro j hj
      simp only at hj
      by_cases hji : j = i
      · rw [if_pos hji] at hj
        exact absurd hj (by simp)
      · rw [if_neg hji] at hj
        have h1 := ih j hj
        have h2 := ih i hr
        rw [h1] at h2
        exact absurd (Option.some.inj h2) hji

lemma all_cleanup_noAppendAfterCleanup :
    ∀ ops : List BatchOp,
      ops.all (fun op => decide (op = BatchOp.cleanup)) = true →
      noAppendAfterCleanup ops = true := by
  intro ops h
  induction ops with
  | nil => rfl
  | cons op rest ih =>
    simp only [List.all_cons, Bool.and_eq_true, decide_eq_true_eq] at h
    obtain ⟨h1, h2⟩ := h
    subst h1
    simpa [noAppendAfterCleanup] using h2

lemma runOps_WF (ops : List BatchOp) :
    ∀ t t' : TransactionBase, t.WF →
      (t._cleanedUp = true →
        ops.all (fun op => decide (op = BatchOp.cleanup)) = true) →
      noAppendAfterCleanup ops = true →
      t.runOps ops = some t' → t'.WF := by
  induction ops with
  | nil =>
    intro t t' hwf _ _ h
    simp only [TransactionBase.runOps] at h
    cases h
    exact hwf
  | cons op rest ih =>
    intro t t' hwf hcl hnac h
    simp only [TransactionBase.runOps] at h
    cases op with
    | append s =>
      cases s with
      | none => simp [TransactionBase.applyOp, TransactionBase.Append] at h
      | some str =>
        simp only [TransactionBase.applyOp, TransactionBase.Append] at h
        have hcln : t._cleanedUp = false := by
          cases hc : t._cleanedUp
          · rfl
          · have := hcl hc
            simp [List.all_cons] at this
        refine ih _ t' ?_ ?_ ?_ h
        · intro hh
          rw [hcln] at hh
          exact absurd hh (by simp)
        · intro hh
          rw [hcln] at hh
          exact absurd hh (by simp)
        · simpa [noAppendAfterCleanup] using hnac
    | appendPrepared p =>
      cases p with
      | none => simp [TransactionBase.applyOp, TransactionBase.AppendPreparedStatement] at h
      | some pid =>
        simp only [TransactionBase.applyOp, TransactionBase.AppendPreparedStatement] at h
        have hcln : t._cleanedUp = false := by
          cases hc : t._cleanedUp
          · rfl
          · have := hcl hc
            simp [List.all_cons] at this
        refine ih _ t' ?_ ?_ ?_ h
        · intro hh
          rw [hcln] at hh
          exact absurd hh (by simp)
        · intro hh
          rw [hcln] at hh
          exact absurd hh (by simp)
        · simpa [noAppendAfterCleanup] using hnac
    | cleanup =>
      simp only [TransactionBase.applyOp] at h
      have hrest : rest.all (fun op => decide (op = BatchOp.cleanup)) = true := by
        simpa [noAppendAfterCleanup] using hnac
      refine ih t.Cleanup t' ?_ (fun _ => hrest)
        (all_cleanup_noAppendAfterCleanup rest hrest) h
      intro hh
      exact (cleanup_state t hwf).1

/-- C1: `TransactionTask::Execute` returns true exactly when some
`TryExecute` call (first attempt or any retry) reported success (code 0);
on true the batch is left untouched; on false the executor has run
`trans->Cleanup()` (so the entries are cleared); a first-attempt error
other than `ER_LOCK_DEADLOCK` is terminal — exactly one attempt, cleanup,
false. -/
theorem execute_result_taxonomy (conn : Nat → Int) (el : Nat → Nat)
    (trans : TransactionBase) (fuel : Nat) (r : ExecResult)
    (h : TransactionTask.Execute conn el trans fuel = some r) :
    (r.ret = true ↔ ∃ i, i < r.attempts ∧ conn i = 0)
    ∧ (r.ret = true → r.trans = trans)
    ∧ (r.ret = false → r.trans = trans.Cleanup ∧
        (trans.WF → r.trans.m_queries = [] ∧ r.trans._cleanedUp = true))
    ∧ (conn 0 ≠ 0 → conn 0 ≠ ER_LOCK_DEADLOCK →
        r.ret = false ∧ r.attempts = 1 ∧ r.trans = trans.Cleanup) := by
  unfold TransactionTask.Execute at h
  by_cases h0 : conn 0 = 0
  · rw [if_pos h0] at h
    cases h
    refine ⟨?_, fun _ => rfl, fun hf => by simp at hf, fun hne _ => absurd h0 hne⟩
    constructor
    · intro _
      exact ⟨0, Nat.zero_lt_one, h0⟩
    · intro _
      rfl
  · rw [if_neg h0] at h
    by_cases hdl : conn 0 = ER_LOCK_DEADLOCK
    · rw [if_pos hdl] at h
      cases hr : TransactionTask.retryLoop (fun k => conn (k + 1)) el fuel 0 0 0 with
      | none => rw [hr] at h; simp at h
      | some ro =>
        rw [hr, Option.map_some'] at h
        have hsound := retryLoop_sound (fun k => conn (k + 1)) el fuel 0 ro hr
        cases hsuc : ro.success
        · rw [hsuc] at h
          simp only [Bool.false_eq_true, if_neg] at h
          cases h
          obtain ⟨_, _, hfails⟩ := hsound.2 hsuc
          refine ⟨?_, fun ht => by simp at ht, fun _ => ⟨rfl, fun hwf => cleanup_state trans hwf⟩,
            fun _ hne => absurd hdl hne⟩
          constructor
          · intro ht
            simp at ht
          · rintro ⟨i, hi, hci⟩
            exfalso
            cases i with
            | zero => exact h0 hci
            | succ j =>
              have hj : j < ro.retryCalls := by
                have hh : j + 1 < 1 + ro.retryCalls := hi
                omega
              exact hfails j (Nat.zero_le j) hj hci
        · rw [hsuc] at h
          simp only [if_pos] at h
          cases h
          obtain ⟨hge, _, hc0, _⟩ := hsound.1 hsuc
          refine ⟨?_, fun _ => rfl, fun hf => by simp at hf, fun _ hne => absurd hdl hne⟩
          constructor
          · intro _
            refine ⟨ro.retryCalls, show ro.retryCalls < 1 + ro.retryCalls by omega, ?_⟩
            have hrw : ro.retryCalls - 1 + 1 = ro.retryCalls := by omega
            rw [← hrw]
            exact hc0
          · intro _
            rfl
    · rw [if_neg hdl] at h
      cases h
      refine ⟨?_, fun ht => by simp at ht, fun _ => ⟨rfl, fun hwf => cleanup_state trans hwf⟩,
        fun _ _ => ⟨rfl, rfl, rfl⟩⟩
      constructor
      · intro ht
        simp at ht
      · rintro ⟨i, hi, hci⟩
        exfalso
        have hi1 : i < 1 := hi
        have hiz : i = 0 := by omega
        subst hiz
        exact h0 hci

/-- Witness for C1: an immediately successful connection leaves the batch
intact. -/
theorem execute_result_taxonomy_witness :
    (⟨true, TransactionBase.mkFresh, 0, 0, 1⟩ : ExecResult).trans
      = TransactionBase.mkFresh :=
  (execute_result_taxonomy (fun _ => 0) (fun _ => 0) TransactionBase.mkFresh 0
    ⟨true, TransactionBase.mkFresh, 0, 0, 1⟩ rfl).2.1 rfl

/-- C2: after a first-attempt deadlock, the loop re-attempts while the
elapsed time is ≤ 60 000 ms; when every re-attempt fails and the clock
eventually exceeds the ceiling, `Execute` emits exactly one fatal
(`TC_LOG_ERROR`) observation, cleans up the batch and returns false. -/
theorem execute_ceiling_exhaustion (conn : Nat → Int) (el : Nat → Nat)
    (trans : TransactionBase) (N fuel : Nat)
    (hdl : conn 0 = ER_LOCK_DEADLOCK)
    (hfail : ∀ k, conn (k + 1) ≠ 0)
    (hclk : DEADLOCK_MAX_RETRY_TIME_MS < el N)
    (hfuel : N + 2 ≤ fuel) :
    ∃ r, TransactionTask.Execute conn el trans fuel = some r ∧
      r.ret = false ∧ r.fatals = 1 ∧ r.trans = trans.Cleanup := by
  have h0 : ¬ conn 0 = 0 := by rw [hdl]; decide
  have htot := retryLoop_total (fun k => conn (k + 1)) el N hclk fuel 0
    (by omega) (by omega)
  obtain ⟨ro, hro⟩ := Option.isSome_iff_exists.1 htot
  have hsound := retryLoop_sound (fun k => conn (k + 1)) el fuel 0 ro hro
  have hs : ro.success = false := by
    cases hsuc : ro.success
    · rfl
    · exfalso
      obtain ⟨_, _, hc0, _⟩ := hsound.1 hsuc
      exact hfail (ro.retryCalls - 1) hc0
  refine ⟨⟨false, trans.Cleanup, ro.warns, 1, 1 + ro.retryCalls⟩, ?_, rfl, rfl, rfl⟩
  unfold TransactionTask.Execute
  rw [if_neg h0, if_pos hdl, hro, Option.map_some', hs]
  simp

/-- Witness for C2: first attempt deadlocks, every retry fails, clock
exceeds the ceiling on its first observation. -/
theorem execute_ceiling_exhaustion_witness :
    ∃ r, TransactionTask.Execute
        (fun n => if n = 0 then ER_LOCK_DEADLOCK else 1) (fun _ => 60001)
        TransactionBase.mkFresh 2 = some r ∧
      r.ret = false ∧ r.fatals = 1 ∧
      r.trans = TransactionBase.mkFresh.Cleanup :=
  execute_ceiling_exhaustion (fun n => if n = 0 then ER_LOCK_DEADLOCK else 1)
    (fun _ => 60001) TransactionBase.mkFresh 0 2 rfl
    (fun k => by simp) (by decide) (by decide)

/-- C3: first attempt deadlocks, first re-attempt succeeds → `Execute`
returns true with exactly one extra `TryExecute` call (2 in total, batch
intact, no logs); and a failing re-attempt emits one warning and continues
the loop. -/
theorem execute_single_retry (conn : Nat → Int) (el : Nat → Nat)
    (trans : TransactionBase) (fuel : Nat)
    (hdl : conn 0 = ER_LOCK_DEADLOCK) (hsucc : conn 1 = 0) (hfuel : 1 ≤ fuel) :
    TransactionTask.Execute conn el trans fuel = some ⟨true, trans, 0, 0, 2⟩
    ∧ ∀ (c : Nat → Int) (e : Nat → Nat) (f k calls warns : Nat),
        c k ≠ 0 → (if k = 0 then 0 else e (k - 1)) ≤ DEADLOCK_MAX_RETRY_TIME_MS →
        TransactionTask.retryLoop c e (f + 1) k calls warns
          = TransactionTask.retryLoop c e f (k + 1) (calls + 1) (warns + 1) := by
  constructor
  · have h0 : ¬ conn 0 = 0 := by rw [hdl]; decide
    cases fuel with
    | zero => omega
    | succ f =>
      unfold TransactionTask.Execute
      rw [if_neg h0, if_pos hdl, TransactionTask.retryLoop]
      rw [if_pos (show (if 0 = 0 then 0 else el (0 - 1)) ≤ DEADLOCK_MAX_RETRY_TIME_MS by simp [DEADLOCK_MAX_RETRY_TIME_MS])]
      rw [if_pos (show conn (0 + 1) = 0 from hsucc), Option.map_some']
      simp
  · intro c e f k calls warns hc hdur
    rw [TransactionTask.retryLoop, if_pos hdur, if_neg hc]

/-- Witness for C3: the concrete single-retry run. -/
theorem execute_single_retry_witness :
    TransactionTask.Execute (fun n => if n = 0 then ER_LOCK_DEADLOCK else 0)
        (fun _ => 0) TransactionBase.mkFresh 1
      = some ⟨true, TransactionBase.mkFresh, 0, 0, 2⟩ :=
  (execute_single_retry (fun n => if n = 0 then ER_LOCK_DEADLOCK else 0)
    (fun _ => 0) TransactionBase.mkFresh 1 rfl rfl (by decide)).1

/-- C4: in every reachable interleaving of threads driving
`TransactionTask::Execute`, at most one thread is inside the deadlock
retry loop at any instant — the single static `_deadlockLock` is acquired
before the loop and released only at scope exit. -/
theorem retry_mutual_exclusion (s : LockState) (i j : Nat)
    (hs : LockReachable s)
    (hi : s.phase i = RetryPhase.retrying)
    (hj : s.phase j = RetryPhase.retrying) :
    i = j := by
  have hinv := lockReachable_inv s hs
  have h1 := hinv i hi
  have h2 := hinv j hj
  rw [h1] at h2
  exact Option.some.inj h2

/-- Witness for C4: a concrete reachable state with thread 0 inside the
retry loop. -/
theorem retry_mutual_exclusion_witness : (0 : Nat) = 0 :=
  retry_mutual_exclusion _ 0 0
    (LockReachable.step _ _
      (LockReachable.step _ _ LockReachable.init (LockStep.hitDeadlock _ 0 rfl))
      (LockStep.acquire _ 0 (by simp) rfl))
    (by simp) (by simp)

/-- C5: `InvokeIfReady` returns false and changes nothing while the future
is invalid or pending; on a ready future it returns true, invoking the
callback with the collected value exactly once (the future becomes
invalid); over any event sequence on a fresh handle the callback fires at
most once. -/
theorem invokeIfReady_spec (cb : TransactionCallback) :
    ((cb.m_future = FutureState.invalid ∨ cb.m_future = FutureState.pending) →
      cb.InvokeIfReady = (cb, false))
    ∧ (∀ v, cb.m_future = FutureState.ready v →
      cb.InvokeIfReady = (⟨FutureState.invalid, cb.fired ++ [v]⟩, true))
    ∧ (∀ (st : FutureState) (evs : List CbEvent),
      (TransactionCallback.run ⟨st, []⟩ evs).fired.length ≤ 1) := by
  refine ⟨?_, ?_, ?_⟩
  · rintro (hm | hm) <;> simp [TransactionCallback.InvokeIfReady, hm]
  · intro v hm
    simp [TransactionCallback.InvokeIfReady, hm]
  · intro st evs
    exact (run_fired_invariant evs ⟨st, []⟩ (by simp) (by simp)).1

/-- Witness for C5: a pending poll fires nothing; a ready poll fires once;
fulfil-then-poll-twice fires at most once. -/
theorem invokeIfReady_spec_witness :
    TransactionCallback.InvokeIfReady ⟨FutureState.pending, []⟩
      = (⟨FutureState.pending, []⟩, false)
    ∧ TransactionCallback.InvokeIfReady ⟨FutureState.ready true, []⟩
      = (⟨FutureState.invalid, [true]⟩, true)
    ∧ (TransactionCallback.run ⟨FutureState.pending, []⟩
        [CbEvent.fulfill true, CbEvent.poll, CbEvent.poll]).fired.length ≤ 1 :=
  ⟨(invokeIfReady_spec ⟨FutureState.pending, []⟩).1 (Or.inr rfl),
   (invokeIfReady_spec ⟨FutureState.ready true, []⟩).2.1 true rfl,
   (invokeIfReady_spec ⟨FutureState.pending, []⟩).2.2 FutureState.pending
     [CbEvent.fulfill true, CbEvent.poll, CbEvent.poll]⟩

/-- C6 counterexample: the code lets `Append` run on an already cleaned-up
batch (its `ASSERT` checks only nullness), leaving `_cleanedUp = true` with
a non-empty sequence — the invariant is not preserved by every operation
sequence. -/
theorem wf_violated_by_append_after_cleanup :
    TransactionBase.runOps TransactionBase.mkFresh
        [BatchOp.cleanup, BatchOp.append (some ("UPDATE t SET x = 1"))]
      = some ⟨[StatementEntry.rawText ("UPDATE t SET x = 1")], true⟩
    ∧ ¬ TransactionBase.WF ⟨[StatementEntry.rawText ("UPDATE t SET x = 1")], true⟩ := by
  refine ⟨rfl, ?_⟩
  intro hwf
  have hh := hwf rfl
  simp at hh

/-- C6 (amended): the invariant "cleaned-up implies empty sequence" holds
after construction and is preserved by every operation sequence in which no
append follows a cleanup (appending to a cleaned-up batch is the spec's
unsupported case and breaks it). -/
theorem wf_preserved_no_append_after_cleanup :
    TransactionBase.WF TransactionBase.mkFresh
    ∧ ∀ (ops : List BatchOp) (t' : TransactionBase),
        noAppendAfterCleanup ops = true →
        TransactionBase.mkFresh.runOps ops = some t' → t'.WF := by
  constructor
  · intro hh
    simp [TransactionBase.mkFresh] at hh
  · intro ops t' hops h
    refine runOps_WF ops TransactionBase.mkFresh t' ?_ ?_ hops h
    · intro hh
      simp [TransactionBase.mkFresh] at hh
    · intro hh
      simp [TransactionBase.mkFresh] at hh

/-- Witness for C6 (amended): append one entry, then clean up. -/
theorem wf_preserved_no_append_after_cleanup_witness :
    TransactionBase.WF ⟨[], true⟩ :=
  wf_preserved_no_append_after_cleanup.2
    [BatchOp.append (some ("A")), BatchOp.cleanup] ⟨[], true⟩ rfl rfl

/-- C7: `Cleanup` is idempotent and terminal: `n + 1` calls equal one call;
one call on a well-formed batch leaves the empty/cleaned state; a second
call is a no-op. -/
theorem cleanup_idempotent (t : TransactionBase) (n : Nat) :
    Nat.iterate TransactionBase.Cleanup (n + 1) t = t.Cleanup
    ∧ (t.WF → t.Cleanup.m_queries = [] ∧ t.Cleanup._cleanedUp = true)
    ∧ t.Cleanup.Cleanup = t.Cleanup := by
  refine ⟨?_, fun hwf => cleanup_state t hwf, cleanup_cleanup t⟩
  rw [Function.iterate_succ_apply]
  exact iterate_cleanup t n

/-- Witness for C7: three cleanups of a one-entry batch equal one. -/
theorem cleanup_idempotent_witness :
    Nat.iterate TransactionBase.Cleanup 3 ⟨[StatementEntry.rawText ("A")], false⟩
      = TransactionBase.Cleanup ⟨[StatementEntry.rawText ("A")], false⟩
    ∧ ((⟨[StatementEntry.rawText ("A")], false⟩ : TransactionBase).Cleanup.m_queries = []
      ∧ (⟨[StatementEntry.rawText ("A")], false⟩ : TransactionBase).Cleanup._cleanedUp = true) :=
  ⟨(cleanup_idempotent ⟨[StatementEntry.rawText ("A")], false⟩ 2).1,
   (cleanup_idempotent ⟨[StatementEntry.rawText ("A")], false⟩ 2).2.1
     (fun hh => by simp at hh)⟩

/-- C8 counterexample: `Append` accepts the non-null empty string — the
`ASSERT(sql)` checks only nullness, so the empty-string append succeeds. -/
theorem append_empty_string_accepted :
    TransactionBase.mkFresh.Append (some (""))
      = some ⟨[StatementEntry.rawText ("")], false⟩ := rfl

/-- C8 (amended): both append operations fail the assertion exactly on a
null argument: `Append` rejects the null pointer (but accepts any non-null
string, the empty string included), and `AppendPreparedStatement` rejects
the null statement handle. -/
theorem append_null_rejected (t : TransactionBase) :
    t.Append none = none
    ∧ t.AppendPreparedStatement none = none
    ∧ ∀ s : String, t.Append (some s)
        = some ⟨t.m_queries ++ [StatementEntry.rawText s], t._cleanedUp⟩
    ∧ ∀ p : Nat, t.AppendPreparedStatement (some p)
        = some ⟨t.m_queries ++ [StatementEntry.prepared p], t._cleanedUp⟩ :=
  ⟨rfl, rfl, fun _ => ⟨rfl, fun _ => rfl⟩⟩

/-- C9: every successful sequence of appends (no cleanup) extends the
query sequence at the end, in exactly insertion order. -/
theorem append_insertion_order (ops : List BatchOp) (t t' : TransactionBase)
    (hnc : ∀ op ∈ ops, op ≠ BatchOp.cleanup)
    (h : t.runOps ops = some t') :
    t'.m_queries = t.m_queries ++ ops.filterMap BatchOp.entry :=
  runOps_append_only ops t t' hnc h

/-- Witness for C9: three appends on a fresh batch land in order. -/
theorem append_insertion_order_witness :
    (⟨[StatementEntry.rawText ("INSERT"), StatementEntry.prepared 7,
        StatementEntry.rawText ("UPDATE")], false⟩ : TransactionBase).m_queries
      = TransactionBase.mkFresh.m_queries
        ++ ([BatchOp.append (some ("INSERT")), BatchOp.appendPrepared (some 7),
             BatchOp.append (some ("UPDATE"))]).filterMap BatchOp.entry :=
  append_insertion_order
    [BatchOp.append (some ("INSERT")), BatchOp.appendPrepared (some 7),
     BatchOp.append (some ("UPDATE"))]
    TransactionBase.mkFresh _ (by decide) rfl

/-- C10: once the retry loop is entered after a first-attempt deadlock, at
least one re-attempt happens before any outcome (the condition is checked
first with `loopDuration = 0`); and because the comparison is the
inclusive `<= 60000`, an observation of exactly 60 000 ms still leads to a
re-attempt rather than loop exit. -/
theorem retry_attempted_before_failure (conn : Nat → Int) (el : Nat → Nat)
    (trans : TransactionBase) (fuel : Nat) (r : ExecResult)
    (hdl : conn 0 = ER_LOCK_DEADLOCK)
    (h : TransactionTask.Execute conn el trans fuel = some r) :
    2 ≤ r.attempts
    ∧ ∀ (c : Nat → Int) (e : Nat → Nat) (f k calls warns : Nat),
        e k = DEADLOCK_MAX_RETRY_TIME_MS →
        TransactionTask.retryLoop c e (f + 1) (k + 1) calls warns
          = (if c (k + 1) = 0 then some ⟨true, calls + 1, warns⟩
             else TransactionTask.retryLoop c e f (k + 2) (calls + 1) (warns + 1)) := by
  constructor
  · have h0 : ¬ conn 0 = 0 := by rw [hdl]; decide
    unfold TransactionTask.Execute at h
    rw [if_neg h0, if_pos hdl] at h
    cases hr : TransactionTask.retryLoop (fun k => conn (k + 1)) el fuel 0 0 0 with
    | none => rw [hr] at h; simp at h
    | some ro =>
      rw [hr, Option.map_some'] at h
      have hcalls := retryLoop_start_calls (fun k => conn (k + 1)) el fuel ro hr
      cases hsuc : ro.success
      · rw [hsuc] at h
        simp only [Bool.false_eq_true, if_neg] at h
        cases h
        show 2 ≤ 1 + ro.retryCalls
        omega
      · rw [hsuc] at h
        simp only [if_pos] at h
        cases h
        show 2 ≤ 1 + ro.retryCalls
        omega
  · intro c e f k calls warns he
    rw [TransactionTask.retryLoop,
      if_pos (show (if k + 1 = 0 then 0 else e (k + 1 - 1)) ≤ DEADLOCK_MAX_RETRY_TIME_MS by
        rw [if_neg (Nat.succ_ne_zero k), Nat.add_sub_cancel, he])]

/-- Witness for C10: the single-retry run makes 2 attempts in total. -/
theorem retry_attempted_before_failure_witness :
    2 ≤ (⟨true, TransactionBase.mkFresh, 0, 0, 2⟩ : ExecResult).attempts :=
  (retry_attempted_before_failure
    (fun n => if n = 0 then ER_LOCK_DEADLOCK else 0) (fun _ => 0)
    TransactionBase.mkFresh 1 ⟨true, TransactionBase.mkFresh, 0, 0, 2⟩
    rfl rfl).1
